import Mathlib

/-!
Verification of the fantasy-football draft toolchain (`database_setup.py`,
`cleanup_csv.py`, `streamlit_app.py`) against its natural-language
specification.  Python strings are embedded as `List Char`; each Python
helper used by the claims is translated to a Lean function of the same
name, and the SQLite tables touched by the import pipeline are embedded as
explicit lists of rows.
-/

set_option maxRecDepth 10000

namespace FFL

/-- Python strings are modelled as lists of characters. -/
abbrev PyStr := List Char

/-- The double-quote character (written numerically to keep literals simple). -/
def dquote : Char := Char.ofNat 34

/-- Characters treated as whitespace by Python's `str.strip` and the regex
class `\s` in text mode: ASCII whitespace plus the Unicode whitespace
variants (non-breaking space, en/em spaces, line/paragraph separators and
so on), written numerically. -/
def pySpaceChars : List Char :=
  [' ', '\t', '\n', Char.ofNat 13, Char.ofNat 11, Char.ofNat 12,
   Char.ofNat 28, Char.ofNat 29, Char.ofNat 30, Char.ofNat 31,
   Char.ofNat 133, Char.ofNat 160, Char.ofNat 5760,
   Char.ofNat 8192, Char.ofNat 8193, Char.ofNat 8194, Char.ofNat 8195,
   Char.ofNat 8196, Char.ofNat 8197, Char.ofNat 8198, Char.ofNat 8199,
   Char.ofNat 8200, Char.ofNat 8201, Char.ofNat 8202,
   Char.ofNat 8232, Char.ofNat 8233, Char.ofNat 8239, Char.ofNat 8287,
   Char.ofNat 12288]

/-- Whether a character is Python whitespace. -/
def isPySpace (c : Char) : Bool := pySpaceChars.contains c

/-- Models `s.strip()`: remove leading and trailing Python whitespace. -/
def pyStrip (l : PyStr) : PyStr :=
  ((l.dropWhile isPySpace).reverse.dropWhile isPySpace).reverse

/-- Models `s.strip('"')`: remove leading and trailing double quotes. -/
def stripQuotes (l : PyStr) : PyStr :=
  ((l.dropWhile (fun c => c = dquote)).reverse.dropWhile (fun c => c = dquote)).reverse

/-- Models `s.lower()` (ASCII data only in this repository). -/
def pyLower (l : PyStr) : PyStr := l.map Char.toLower

/-- The status-flag alphabet of the regex `\(([QIRSP]+)\)`. -/
def statusAlpha : List Char := ['Q', 'I', 'R', 'S', 'P']

/-- One scan step for `re.findall(r'\(([QIRSP]+)\)', s)` starting exactly at
the current position: on a match, return the captured run and the remainder
after the closing parenthesis. -/
def tryGroup (s : PyStr) : Option (PyStr × PyStr) :=
  match s with
  | '(' :: r =>
    let run := r.takeWhile (fun c => statusAlpha.contains c)
    match r.dropWhile (fun c => statusAlpha.contains c) with
    | ')' :: tail => if run.isEmpty then none else some (run, tail)
    | _ => none
  | _ => none

/-- Models `re.findall(r'\(([QIRSP]+)\)', s)`: all captured status runs,
scanning left to right, non-overlapping.  `fuel` bounds the recursion; it
is set to the string length, which suffices because every step consumes at
least one character. -/
def findGroupsAux : Nat → PyStr → List PyStr
  | 0, _ => []
  | _ + 1, [] => []
  | fuel + 1, c :: rest =>
    match tryGroup (c :: rest) with
    | some (run, tail) => run :: findGroupsAux fuel tail
    | none => findGroupsAux fuel rest

/-- Models `re.findall(r'\(([QIRSP]+)\)', s)`. -/
def findGroups (s : PyStr) : List PyStr := findGroupsAux s.length s

/-- One scan step for `re.sub(r'\s*\([QIRSP]+\)', '', s)` at the current
position: optional whitespace, an opening parenthesis, a nonempty run of
status letters, a closing parenthesis.  Returns the remainder after the
match.  (Only the maximal whitespace run can precede the parenthesis, since
a shorter whitespace prefix would be followed by another whitespace
character rather than by the parenthesis.) -/
def trySub (s : PyStr) : Option PyStr :=
  match s.dropWhile isPySpace with
  | '(' :: r =>
    let run := r.takeWhile (fun c => statusAlpha.contains c)
    match r.dropWhile (fun c => statusAlpha.contains c) with
    | ')' :: tail => if run.isEmpty then none else some tail
    | _ => none
  | _ => none

/-- Models `re.sub(r'\s*\([QIRSP]+\)', '', s)`: delete every match,
scanning left to right.  `fuel` bounds the recursion as in
`findGroupsAux`. -/
def removeGroupsAux : Nat → PyStr → PyStr
  | 0, l => l
  | _ + 1, [] => []
  | fuel + 1, c :: rest =>
    match trySub (c :: rest) with
    | some tail => removeGroupsAux fuel tail
    | none => c :: removeGroupsAux fuel rest

/-- Models `re.sub(r'\s*\([QIRSP]+\)', '', s)`. -/
def removeGroups (s : PyStr) : PyStr := removeGroupsAux s.length s

/-- Models `s.rsplit(sep, 1)`: split at the last occurrence of `sep`,
giving two parts, or the whole string when `sep` does not occur. -/
def rsplitOnce (sep : Char) (l : PyStr) : List PyStr :=
  let r := l.reverse
  match r.dropWhile (fun a => a ≠ sep) with
  | c :: front => if c = sep
      then [front.reverse, (r.takeWhile (fun a => a ≠ sep)).reverse]
      else [l]
  | [] => [l]

/-- Whether the two-character separator `", "` occurs in the string
(Python `', ' in s`). -/
def containsCommaSpace : PyStr → Bool
  | ',' :: ' ' :: _ => true
  | _ :: rest => containsCommaSpace rest
  | [] => false

/-- Models `s.split(', ')`: split on every non-overlapping occurrence of
the two-character separator, scanning left to right. -/
def splitCommaSpace : PyStr → List PyStr
  | ',' :: ' ' :: rest =>
    [] :: splitCommaSpace rest
  | c :: rest =>
    match splitCommaSpace rest with
    | [] => [[c]]
    | h :: t => (c :: h) :: t
  | [] => [[]]

/-- Models `s.split()`: split on runs of whitespace, discarding empty
fields. -/
def pySplitWs (l : PyStr) : List PyStr :=
  (l.splitOnP isPySpace).filter (fun w => !w.isEmpty)

/-- Models `sep.join(parts)`. -/
def pyJoin (sep : PyStr) (parts : List PyStr) : PyStr :=
  List.intercalate sep parts

/-- The structured record produced by `parse_player_string`. -/
structure PlayerInfo where
  first_name : PyStr
  last_name : PyStr
  nfl_team : PyStr
  position : PyStr
  status : Option PyStr
deriving DecidableEq, Repr

/-- Lines 118-132 of `database_setup.py`: split the name portion into
(first name, last name). -/
def parseName (namePart : PyStr) : PyStr × PyStr :=
  if containsCommaSpace namePart then
    match splitCommaSpace namePart with
    | [l, f] => (f, l)
    | comps =>
      -- cases like "Harrison Jr., Marvin" with three or more components
      (comps.getLast?.getD [], pyJoin [',', ' '] comps.dropLast)
  else
    match pySplitWs namePart with
    | [] => ([], [])
    | w :: ws => (w, if ws.isEmpty then [] else pyJoin [' '] ws)

/-- Models `FantasyFootballDB.parse_player_string`
(database_setup.py lines 84-140). -/
def parse_player_string (s0 : PyStr) : Option PlayerInfo :=
  let s1 := stripQuotes s0
  let statusMatches := findGroups s1
  let status := if statusMatches.isEmpty then none
                else some (pyJoin [' '] statusMatches)
  let s2 := removeGroups s1
  match rsplitOnce ' ' s2 with
  | [nameAndTeam, position] =>
    match rsplitOnce ' ' nameAndTeam with
    | [namePart, nflTeam] =>
      let fl := parseName namePart
      some { first_name := pyStrip fl.1,
             last_name := pyStrip fl.2,
             nfl_team := pyStrip nflTeam,
             position := pyStrip position,
             status := status }
    | _ => none
  | _ => none

/-- Digit-string value for Python `int()` (decimal digits only; the
underscore-grouping extension of numeric literals is not used by this
repository's data and is not modelled). -/
def digitsVal (ds : PyStr) : Option Nat :=
  if ds.isEmpty then none
  else if ds.all Char.isDigit then
    some (ds.foldl (fun n c => n * 10 + (c.toNat - 48)) 0)
  else none

/-- Models Python `int(s)` on a string: optional surrounding whitespace,
optional sign, decimal digits; `none` models the `ValueError` raised
otherwise. -/
def pyInt (s : PyStr) : Option Int :=
  match pyStrip s with
  | '+' :: ds => (digitsVal ds).map (fun n => (n : Int))
  | '-' :: ds => (digitsVal ds).map (fun n => -(n : Int))
  | ds => (digitsVal ds).map (fun n => (n : Int))

/-- Models `FantasyFootballDB.parse_pick_number`
(database_setup.py lines 142-151): split on every dot; the tuple unpacking
raises unless there are exactly two parts, and `int()` raises on
non-numeric parts; both are caught and turned into the `None` failure
signal, which is returned, not raised. -/
def parse_pick_number (s : PyStr) : Option (Int × Int) :=
  match s.splitOn '.' with
  | [a, b] =>
    match pyInt a, pyInt b with
    | some r, some p => some (r, p)
    | _, _ => none
  | _ => none

/-! ### Helper lemmas about the status-group scanner -/

/-- A successful `tryGroup` step captures a nonempty run of status letters. -/
theorem tryGroup_sound {s run tail : PyStr} (h : tryGroup s = some (run, tail)) :
    run ≠ [] ∧ ∀ c ∈ run, c ∈ statusAlpha := by
  unfold tryGroup at h
  split at h
  case h_2 => exact absurd h (by simp)
  case h_1 r =>
    simp only [] at h
    split at h
    case h_2 => exact absurd h (by simp)
    case h_1 tail2 heq =>
      split at h
      case isTrue => exact absurd h (by simp)
      case isFalse hne =>
        injection h with h
        injection h with h1 h2
        subst h1
        refine ⟨by simpa using hne, fun c hc => ?_⟩
        have := List.all_takeWhile (p := fun c => statusAlpha.contains c) (l := r)
        rw [List.all_eq_true] at this
        simpa using this c hc

/-- Every run captured by the findall scanner is a nonempty string of
status letters. -/
theorem findGroupsAux_sound {m : PyStr} :
    ∀ fuel l, m ∈ findGroupsAux fuel l → m ≠ [] ∧ ∀ c ∈ m, c ∈ statusAlpha := by
  intro fuel
  induction fuel with
  | zero => intro l h; exact absurd h (by simp [findGroupsAux])
  | succ n ih =>
    intro l h
    match l with
    | [] => exact absurd h (by simp [findGroupsAux])
    | c :: rest =>
      rw [findGroupsAux] at h
      split at h
      case h_1 run tail htry =>
        rcases List.mem_cons.mp h with hm | hm
        · subst hm; exact tryGroup_sound htry
        · exact ih tail hm
      case h_2 => exact ih rest h

/-- Every run returned by `findGroups` is a nonempty string of status
letters. -/
theorem findGroups_sound {s m : PyStr} (h : m ∈ findGroups s) :
    m ≠ [] ∧ ∀ c ∈ m, c ∈ statusAlpha :=
  findGroupsAux_sound s.length s h

/-! ### Claims C2, C3, C4, C10: the pick-text and pick-number parsers -/

/-- C2: `"Lamb, CeeDee DAL WR (Q)"` parses to the expected record, and in
`"Harrison Jr., Marvin ARI WR (R)"` the suffix stays attached to the
surname. -/
theorem parse_player_string_examples :
    parse_player_string "Lamb, CeeDee DAL WR (Q)".toList =
      some { first_name := "CeeDee".toList, last_name := "Lamb".toList,
             nfl_team := "DAL".toList, position := "WR".toList,
             status := some "Q".toList }
    ∧ parse_player_string "Harrison Jr., Marvin ARI WR (R)".toList =
      some { first_name := "Marvin".toList, last_name := "Harrison Jr.".toList,
             nfl_team := "ARI".toList, position := "WR".toList,
             status := some "R".toList } := by
  constructor <;> decide

/-- C3: whenever `parse_player_string` returns a record, its status field
is the space-joined list of all parenthesized status-letter runs found in
the (quote-stripped) input, in order of appearance, and `none` when there
is no such run; in particular `"Williams, Caleb CHI QB (R) (Q)"` yields
status `"R Q"`. -/
theorem parse_player_string_status (s : PyStr) (info : PlayerInfo)
    (h : parse_player_string s = some info) :
    info.status = (if (findGroups (stripQuotes s)).isEmpty then none
                   else some (pyJoin [' '] (findGroups (stripQuotes s))))
    ∧ (parse_player_string "Williams, Caleb CHI QB (R) (Q)".toList).map
        PlayerInfo.status = some (some "R Q".toList) := by
  refine ⟨?_, by decide⟩
  unfold parse_player_string at h
  simp only [] at h
  split at h
  case h_2 => exact absurd h (by simp)
  case h_1 =>
    split at h
    case h_2 => exact absurd h (by simp)
    case h_1 =>
      injection h with h
      subst h
      rfl

/-- Witness for C3 at the double-flag example. -/
theorem parse_player_string_status_witness :
    parse_player_string "Williams, Caleb CHI QB (R) (Q)".toList =
      some { first_name := "Caleb".toList, last_name := "Williams".toList,
             nfl_team := "CHI".toList, position := "QB".toList,
             status := some "R Q".toList }
    ∧ (some "R Q".toList : Option PyStr) =
        (if (findGroups (stripQuotes "Williams, Caleb CHI QB (R) (Q)".toList)).isEmpty
         then none
         else some (pyJoin [' ']
           (findGroups (stripQuotes "Williams, Caleb CHI QB (R) (Q)".toList)))) := by
  have h : parse_player_string "Williams, Caleb CHI QB (R) (Q)".toList =
      some { first_name := "Caleb".toList, last_name := "Williams".toList,
             nfl_team := "CHI".toList, position := "QB".toList,
             status := some "R Q".toList } := by decide
  exact ⟨h, (parse_player_string_status _ _ h).1⟩

/-- C4: `parse_pick_number` returns the integer pair exactly when the
string splits on a dot into exactly two parts each convertible by `int()`;
the failure signal is the returned value `none`, never an exception
(the embedding is a total function into `Option`).  Concretely, `"2.10"`
parses to `(2, 10)` and `"abc"` fails. -/
theorem parse_pick_number_spec :
    (∀ s a b r p, s.splitOn '.' = [a, b] → pyInt a = some r → pyInt b = some p →
        parse_pick_number s = some (r, p))
    ∧ (∀ s : PyStr, (¬ ∃ a b, s.splitOn '.' = [a, b] ∧
        (pyInt a).isSome ∧ (pyInt b).isSome) → parse_pick_number s = none)
    ∧ parse_pick_number "2.10".toList = some (2, 10)
    ∧ parse_pick_number "abc".toList = none := by
  refine ⟨?_, ?_, by decide, by decide⟩
  · intro s a b r p hs ha hb
    simp [parse_pick_number, hs, ha, hb]
  · intro s h
    unfold parse_pick_number
    split
    case h_2 => rfl
    case h_1 a b hs =>
      split
      case h_1 r p ha hb =>
        exact absurd ⟨a, b, hs, by simp [ha], by simp [hb]⟩ h
      case h_2 => rfl

/-- Witness for C4 at `"2.10"`. -/
theorem parse_pick_number_spec_witness :
    (List.splitOn '.' "2.10".toList = ["2".toList, "10".toList]
      ∧ pyInt "2".toList = some 2 ∧ pyInt "10".toList = some 10)
    ∧ parse_pick_number "2.10".toList = some (2, 10) := by
  have h1 : List.splitOn '.' "2.10".toList = ["2".toList, "10".toList] := by decide
  have h2 : pyInt "2".toList = some 2 := by decide
  have h3 : pyInt "10".toList = some 10 := by decide
  exact ⟨⟨h1, h2, h3⟩, parse_pick_number_spec.1 _ _ _ _ _ h1 h2 h3⟩

/-- C10: a parenthesized group containing a character outside the status
alphabet is never captured (every captured run consists of status letters
only), and on `"Smith, John DAL WR (X)"` the group is neither extracted
nor removed, so the record comes back with position `"(X)"`, NFL team
`"WR"` and first name `"John DAL"`. -/
theorem parse_player_string_foreign_group (s m : PyStr) (h : m ∈ findGroups s) :
    (m ≠ [] ∧ ∀ c ∈ m, c ∈ statusAlpha)
    ∧ findGroups "Smith, John DAL WR (X)".toList = []
    ∧ removeGroups "Smith, John DAL WR (X)".toList = "Smith, John DAL WR (X)".toList
    ∧ parse_player_string "Smith, John DAL WR (X)".toList =
        some { first_name := "John DAL".toList, last_name := "Smith".toList,
               nfl_team := "WR".toList, position := "(X)".toList,
               status := none } :=
  ⟨findGroups_sound h, by decide, by decide, by decide⟩

/-- Witness for C10 at the input `"(Q)"`, whose single group is captured. -/
theorem parse_player_string_foreign_group_witness :
    (['Q'] ∈ findGroups "(Q)".toList)
    ∧ ((['Q'] ≠ ([] : PyStr) ∧ ∀ c ∈ ['Q'], c ∈ statusAlpha)
       ∧ findGroups "Smith, John DAL WR (X)".toList = []
       ∧ removeGroups "Smith, John DAL WR (X)".toList = "Smith, John DAL WR (X)".toList
       ∧ parse_player_string "Smith, John DAL WR (X)".toList =
           some { first_name := "John DAL".toList, last_name := "Smith".toList,
                  nfl_team := "WR".toList, position := "(X)".toList,
                  status := none }) :=
  ⟨by decide, parse_player_string_foreign_group "(Q)".toList ['Q'] (by decide)⟩

/-! ### Helper lemmas about `rsplitOnce` -/

/-- Models `s.rsplit(sep, 1)` when `sep` does not occur: one part. -/
theorem rsplitOnce_of_not_mem (sep : Char) (l : PyStr) (h : sep ∉ l) :
    rsplitOnce sep l = [l] := by
  unfold rsplitOnce
  simp only []
  have hd : l.reverse.dropWhile (fun a => decide (a ≠ sep)) = [] := by
    rw [List.dropWhile_eq_nil_iff]
    intro x hx
    simp only [decide_eq_true_eq]
    intro hxe
    exact h (by simpa [hxe] using (List.mem_reverse.mp hx))
  rw [hd]

/-- Models `s.rsplit(sep, 1)` when `sep` occurs: two parts, split at the
last occurrence. -/
theorem rsplitOnce_of_mem (sep : Char) (l : PyStr) (h : sep ∈ l) :
    ∃ a b, rsplitOnce sep l = [a, b] ∧ l = a ++ sep :: b ∧ sep ∉ b := by
  unfold rsplitOnce
  simp only []
  cases hd : l.reverse.dropWhile (fun a => decide (a ≠ sep)) with
  | nil =>
    exfalso
    rw [List.dropWhile_eq_nil_iff] at hd
    exact absurd (hd sep (List.mem_reverse.mpr h)) (by simp)
  | cons c front =>
    have hcsep : c = sep := by
      have hh := List.head?_dropWhile_not (fun a => decide (a ≠ sep)) l.reverse
      rw [hd] at hh
      simpa using hh
    refine ⟨front.reverse, (l.reverse.takeWhile (fun a => decide (a ≠ sep))).reverse,
      by simp [hcsep], ?_, ?_⟩
    · have h2 : l.reverse.takeWhile (fun a => decide (a ≠ sep)) ++ (c :: front) =
          l.reverse := by
        rw [← hd]; exact List.takeWhile_append_dropWhile _ _
      have h3 : l = (c :: front).reverse ++
          (l.reverse.takeWhile (fun a => decide (a ≠ sep))).reverse := by
        rw [← List.reverse_append, h2, List.reverse_reverse]
      simpa [hcsep] using h3
    · intro hmem
      rw [List.mem_reverse] at hmem
      have hall := List.all_takeWhile (p := fun a => decide (a ≠ sep)) (l := l.reverse)
      rw [List.all_eq_true] at hall
      exact absurd (hall sep hmem) (by simp)

/-- Counting elements across the decomposition produced by
`rsplitOnce_of_mem`. -/
theorem count_of_rsplit_decomp (sep : Char) (a b : PyStr) (hnb : sep ∉ b) :
    List.count sep (a ++ sep :: b) = List.count sep a + 1 := by
  rw [List.count_append, List.count_cons_self, List.count_eq_zero.mpr hnb]

/-! ### Claim C9: totality and failure characterization of the pick-text
parser -/

/-- C9: `parse_player_string` is a total function into `Option` (the
embedding of a Python function that never raises), and it returns the
failure signal `none` exactly when the text, after stripping surrounding
double quotes and removing the parenthesized status runs, contains fewer
than two space characters; a three-token input with no comma-space
separator such as `"Smith DAL WR"` still succeeds, with an empty last
name. -/
theorem parse_player_string_none_iff :
    (∀ s : PyStr, parse_player_string s = none ↔
      List.count ' ' (removeGroups (stripQuotes s)) < 2)
    ∧ parse_player_string "Smith DAL WR".toList =
      some { first_name := "Smith".toList, last_name := [],
             nfl_team := "DAL".toList, position := "WR".toList,
             status := none } := by
  refine ⟨fun s => ?_, by decide⟩
  unfold parse_player_string
  simp only []
  cases hc : List.count ' ' (removeGroups (stripQuotes s)) with
  | zero =>
    have hmem : ' ' ∉ removeGroups (stripQuotes s) := by
      rw [← List.count_eq_zero]; exact hc
    rw [rsplitOnce_of_not_mem ' ' _ hmem]
    simp
  | succ n =>
    have hmem : ' ' ∈ removeGroups (stripQuotes s) := by
      rw [← List.count_pos_iff, hc]; exact Nat.succ_pos n
    obtain ⟨a, b, heq, hdec, hnb⟩ := rsplitOnce_of_mem ' ' _ hmem
    rw [heq]
    simp only []
    have hca : List.count ' ' a = n := by
      have := count_of_rsplit_decomp ' ' a b hnb
      rw [← hdec, hc] at this
      omega
    cases n with
    | zero =>
      have hmema : ' ' ∉ a := by rw [← List.count_eq_zero]; exact hca
      rw [rsplitOnce_of_not_mem ' ' a hmema]
      simp
    | succ m =>
      have hmema : ' ' ∈ a := by
        rw [← List.count_pos_iff, hca]; exact Nat.succ_pos m
      obtain ⟨x, y, heq2, _, _⟩ := rsplitOnce_of_mem ' ' a hmema
      rw [heq2]
      simp

/-! ### The SQLite tables and the import pipeline (database_setup.py) -/

/-- A row of the `teams` table. -/
structure TeamRow where
  team_id : Nat
  team_name : PyStr
  owner_name : Option PyStr
deriving DecidableEq, Repr

/-- A row of the `players` table. -/
structure PlayerRow where
  player_id : Nat
  first_name : PyStr
  last_name : PyStr
  nfl_team : PyStr
  position : PyStr
deriving DecidableEq, Repr

/-- A row of the `drafts` table (the unused `draft_date` column stays
`NULL` under the import pipeline and is omitted). -/
structure DraftRow where
  draft_id : Nat
  year : Int
  league_name : PyStr
deriving DecidableEq, Repr

/-- A row of the `draft_picks` table. -/
structure PickRow where
  pick_id : Nat
  draft_id : Nat
  team_id : Nat
  player_id : Nat
  round_number : Int
  pick_in_round : Int
  overall_pick : Int
  player_status : Option PyStr
deriving DecidableEq, Repr

/-- The state of the four tables created by `create_tables`, with the
`AUTOINCREMENT` sequence counters. -/
structure DB where
  teams : List TeamRow
  players : List PlayerRow
  drafts : List DraftRow
  draft_picks : List PickRow
  nextTeamId : Nat
  nextPlayerId : Nat
  nextDraftId : Nat
  nextPickId : Nat
deriving DecidableEq, Repr

/-- A freshly created database: four empty tables. -/
def emptyDB : DB :=
  { teams := [], players := [], drafts := [], draft_picks := [],
    nextTeamId := 1, nextPlayerId := 1, nextDraftId := 1, nextPickId := 1 }

/-- Models `insert_team` (lines 153-161): `INSERT OR IGNORE` on the unique
`team_name` followed by a lookup of the id. -/
def insert_team (db : DB) (name : PyStr) : DB × Nat :=
  match db.teams.find? (fun t => t.team_name = name) with
  | some t => (db, t.team_id)
  | none =>
    ({ db with teams := db.teams ++ [⟨db.nextTeamId, name, none⟩],
               nextTeamId := db.nextTeamId + 1 },
     db.nextTeamId)

/-- Models `insert_player` (lines 163-175): `INSERT OR IGNORE` on the
unique natural key followed by a lookup of the id. -/
def insert_player (db : DB) (fn ln tm pos : PyStr) : DB × Nat :=
  match db.players.find? (fun p =>
      p.first_name = fn ∧ p.last_name = ln ∧ p.nfl_team = tm ∧ p.position = pos) with
  | some p => (db, p.player_id)
  | none =>
    ({ db with players := db.players ++ [⟨db.nextPlayerId, fn, ln, tm, pos⟩],
               nextPlayerId := db.nextPlayerId + 1 },
     db.nextPlayerId)

/-- The default league name of the `drafts` table. -/
def defaultLeague : PyStr := "La Resistance".toList

/-- Models `insert_draft` (lines 177-186): `INSERT OR IGNORE` on the unique
`(year, league_name)` followed by a lookup of the id. -/
def insert_draft (db : DB) (year : Int) (league : PyStr) : DB × Nat :=
  match db.drafts.find? (fun d => d.year = year ∧ d.league_name = league) with
  | some d => (db, d.draft_id)
  | none =>
    ({ db with drafts := db.drafts ++ [⟨db.nextDraftId, year, league⟩],
               nextDraftId := db.nextDraftId + 1 },
     db.nextDraftId)

/-- Models the `INSERT OR IGNORE INTO draft_picks` statement (lines
238-245), keyed on the unique `(draft_id, overall_pick)`. -/
def insert_pick (db : DB) (draftId teamId playerId : Nat)
    (roundNum pickInRound overall : Int) (status : Option PyStr) : DB :=
  if db.draft_picks.any (fun pk => pk.draft_id = draftId ∧ pk.overall_pick = overall)
  then db
  else { db with
         draft_picks := db.draft_picks ++
           [⟨db.nextPickId, draftId, teamId, playerId, roundNum, pickInRound,
             overall, status⟩],
         nextPickId := db.nextPickId + 1 }

/-- One CSV row as consumed positionally by `import_csv_data`: year,
pick-number string, overall pick, team name, pick text.  Cells are
modelled as the strings `str(row.iloc[i])` produces; the integer columns
go through `int()`. -/
structure CSVRow where
  year_s : PyStr
  pick_s : PyStr
  overall_s : PyStr
  team_s : PyStr
  player_s : PyStr
deriving DecidableEq, Repr

/-- Counters reported by `import_csv_data`. -/
structure ImportCounters where
  imported : Nat
  error : Nat
  skipped : Nat
deriving DecidableEq, Repr

/-- The sentinel phrases for deliberate non-picks (line 209). -/
def sentinels : List PyStr :=
  ["no pick made".toList, "no pick".toList, "timer".toList]

/-- Lines 227-245 of `import_csv_data`: the three upserts followed by the
pick insert, named here so the per-row step below stays readable. -/
def insertAll (db : DB) (year : Int) (team : PyStr) (info : PlayerInfo)
    (rp : Int × Int) (overall : Int) : DB :=
  let d1 := insert_draft db year defaultLeague
  let d2 := insert_team d1.1 team
  let d3 := insert_player d2.1 info.first_name info.last_name
              info.nfl_team info.position
  insert_pick d3.1 d1.2 d2.2 d3.2 rp.1 rp.2 overall info.status

/-- The body of the per-row loop of `import_csv_data` (lines 200-254):
integer conversions (whose `ValueError` is caught by the enclosing
`except`, counting an error), the sentinel skip, the two parses, and the
insert chain `insertAll`.  Note that `if not round_num` is also true for a
parsed round of `0`. -/
def processRow (st : DB × ImportCounters) (r : CSVRow) : DB × ImportCounters :=
  let db := st.1
  let c := st.2
  match pyInt r.year_s with
  | none => (db, { c with error := c.error + 1 })
  | some year =>
  match pyInt r.overall_s with
  | none => (db, { c with error := c.error + 1 })
  | some overall =>
  if pyLower (pyStrip r.player_s) ∈ sentinels then
    (db, { c with skipped := c.skipped + 1 })
  else
  match parse_player_string r.player_s with
  | none => (db, { c with error := c.error + 1 })
  | some info =>
  match parse_pick_number r.pick_s with
  | none => (db, { c with error := c.error + 1 })
  | some rp =>
  if rp.1 = 0 then (db, { c with error := c.error + 1 })
  else
    (insertAll db year r.team_s info rp overall,
     { c with imported := c.imported + 1 })

/-- Models `import_csv_data` (lines 188-258): fold the per-row step over
the CSV rows, starting from zero counters. -/
def import_csv_data (db : DB) (rows : List CSVRow) : DB × ImportCounters :=
  rows.foldl processRow (db, ⟨0, 0, 0⟩)

/-! ### Idempotence of the import pipeline (claim C1)

The import only ever appends rows, and an appended row's natural key is
present afterwards, so re-processing any already-processed row leaves the
tables untouched. -/

/-- `b` extends `a`: every table of `b` is the corresponding table of `a`
with rows appended at the end. -/
def dbExt (a b : DB) : Prop :=
  (∃ t, b.teams = a.teams ++ t) ∧ (∃ p, b.players = a.players ++ p) ∧
  (∃ d, b.drafts = a.drafts ++ d) ∧ (∃ k, b.draft_picks = a.draft_picks ++ k)

theorem dbExt_refl (a : DB) : dbExt a a :=
  ⟨⟨[], by simp⟩, ⟨[], by simp⟩, ⟨[], by simp⟩, ⟨[], by simp⟩⟩

theorem dbExt_trans {a b c : DB} (h1 : dbExt a b) (h2 : dbExt b c) : dbExt a c := by
  obtain ⟨⟨t1, ht1⟩, ⟨p1, hp1⟩, ⟨d1, hd1⟩, ⟨k1, hk1⟩⟩ := h1
  obtain ⟨⟨t2, ht2⟩, ⟨p2, hp2⟩, ⟨d2, hd2⟩, ⟨k2, hk2⟩⟩ := h2
  exact ⟨⟨t1 ++ t2, by simp [ht2, ht1]⟩, ⟨p1 ++ p2, by simp [hp2, hp1]⟩,
         ⟨d1 ++ d2, by simp [hd2, hd1]⟩, ⟨k1 ++ k2, by simp [hk2, hk1]⟩⟩

/-- A found `find?` stays found (with the same answer) after appending. -/
theorem find?_append_some {α : Type} {p : α → Bool} {l : List α} {x : α}
    (h : l.find? p = some x) (t : List α) : (l ++ t).find? p = some x := by
  rw [List.find?_append, h]; rfl

theorem insert_team_ext (db : DB) (n : PyStr) : dbExt db (insert_team db n).1 := by
  unfold insert_team
  split
  · exact dbExt_refl db
  · exact ⟨⟨_, rfl⟩, ⟨[], by simp⟩, ⟨[], by simp⟩, ⟨[], by simp⟩⟩

theorem insert_player_ext (db : DB) (fn ln tm pos : PyStr) :
    dbExt db (insert_player db fn ln tm pos).1 := by
  unfold insert_player
  split
  · exact dbExt_refl db
  · exact ⟨⟨[], by simp⟩, ⟨_, rfl⟩, ⟨[], by simp⟩, ⟨[], by simp⟩⟩

theorem insert_draft_ext (db : DB) (y : Int) (L : PyStr) :
    dbExt db (insert_draft db y L).1 := by
  unfold insert_draft
  split
  · exact dbExt_refl db
  · exact ⟨⟨[], by simp⟩, ⟨[], by simp⟩, ⟨_, rfl⟩, ⟨[], by simp⟩⟩

theorem insert_pick_ext (db : DB) (dId tId pId : Nat) (rn pir ov : Int)
    (st : Option PyStr) : dbExt db (insert_pick db dId tId pId rn pir ov st) := by
  unfold insert_pick
  split
  · exact dbExt_refl db
  · exact ⟨⟨[], by simp⟩, ⟨[], by simp⟩, ⟨[], by simp⟩, ⟨_, rfl⟩⟩

theorem insertAll_ext (db : DB) (year : Int) (team : PyStr) (info : PlayerInfo)
    (rp : Int × Int) (overall : Int) :
    dbExt db (insertAll db year team info rp overall) := by
  unfold insertAll
  exact dbExt_trans (insert_draft_ext ..)
    (dbExt_trans (insert_team_ext ..)
      (dbExt_trans (insert_player_ext ..) (insert_pick_ext ..)))

/-! Tables that each insert helper leaves unchanged. -/

theorem insert_team_drafts (db : DB) (n : PyStr) :
    (insert_team db n).1.drafts = db.drafts := by
  unfold insert_team; split <;> rfl

theorem insert_team_players (db : DB) (n : PyStr) :
    (insert_team db n).1.players = db.players := by
  unfold insert_team; split <;> rfl

theorem insert_player_drafts (db : DB) (fn ln tm pos : PyStr) :
    (insert_player db fn ln tm pos).1.drafts = db.drafts := by
  unfold insert_player; split <;> rfl

theorem insert_player_teams (db : DB) (fn ln tm pos : PyStr) :
    (insert_player db fn ln tm pos).1.teams = db.teams := by
  unfold insert_player; split <;> rfl

theorem insert_pick_drafts (db : DB) (dId tId pId : Nat) (rn pir ov : Int)
    (st : Option PyStr) :
    (insert_pick db dId tId pId rn pir ov st).drafts = db.drafts := by
  unfold insert_pick; split <;> rfl

theorem insert_pick_teams (db : DB) (dId tId pId : Nat) (rn pir ov : Int)
    (st : Option PyStr) :
    (insert_pick db dId tId pId rn pir ov st).teams = db.teams := by
  unfold insert_pick; split <;> rfl

theorem insert_pick_players (db : DB) (dId tId pId : Nat) (rn pir ov : Int)
    (st : Option PyStr) :
    (insert_pick db dId tId pId rn pir ov st).players = db.players := by
  unfold insert_pick; split <;> rfl

/-! After each upsert the natural key is present, and an upsert on a
present key is a no-op returning the present id. -/

theorem insert_draft_post (db : DB) (year : Int) (L : PyStr) :
    (insert_draft db year L).1.drafts.find?
      (fun d => d.year = year ∧ d.league_name = L) =
    some ⟨(insert_draft db year L).2, year, L⟩ := by
  unfold insert_draft
  cases hf : db.drafts.find? (fun d => d.year = year ∧ d.league_name = L) with
  | some row =>
    simp only []
    have hp := List.find?_some hf
    simp only [decide_eq_true_eq] at hp
    have : row = ⟨row.draft_id, year, L⟩ := by
      cases row; simp_all
    rw [hf, this]
  | none =>
    simp only []
    rw [List.find?_append, hf]
    simp

theorem insert_draft_found {db : DB} {year : Int} {L : PyStr} {row : DraftRow}
    (h : db.drafts.find? (fun d => d.year = year ∧ d.league_name = L) = some row) :
    insert_draft db year L = (db, row.draft_id) := by
  unfold insert_draft; rw [h]

theorem insert_team_post (db : DB) (n : PyStr) :
    ∃ t : TeamRow, (insert_team db n).1.teams.find? (fun t => t.team_name = n) = some t
      ∧ t.team_id = (insert_team db n).2 := by
  unfold insert_team
  cases hf : db.teams.find? (fun t => t.team_name = n) with
  | some row => exact ⟨row, by rw [hf], rfl⟩
  | none =>
    refine ⟨⟨db.nextTeamId, n, none⟩, ?_, rfl⟩
    simp only []
    rw [List.find?_append, hf]
    simp

theorem insert_team_found {db : DB} {n : PyStr} {row : TeamRow}
    (h : db.teams.find? (fun t => t.team_name = n) = some row) :
    insert_team db n = (db, row.team_id) := by
  unfold insert_team; rw [h]

theorem insert_player_post (db : DB) (fn ln tm pos : PyStr) :
    ∃ p : PlayerRow, (insert_player db fn ln tm pos).1.players.find?
        (fun p => p.first_name = fn ∧ p.last_name = ln ∧ p.nfl_team = tm
          ∧ p.position = pos) = some p
      ∧ p.player_id = (insert_player db fn ln tm pos).2 := by
  unfold insert_player
  cases hf : db.players.find? (fun p => p.first_name = fn ∧ p.last_name = ln
      ∧ p.nfl_team = tm ∧ p.position = pos) with
  | some row => exact ⟨row, by rw [hf], rfl⟩
  | none =>
    refine ⟨⟨db.nextPlayerId, fn, ln, tm, pos⟩, ?_, rfl⟩
    simp only []
    rw [List.find?_append, hf]
    simp

theorem insert_player_found {db : DB} {fn ln tm pos : PyStr} {row : PlayerRow}
    (h : db.players.find? (fun p => p.first_name = fn ∧ p.last_name = ln
      ∧ p.nfl_team = tm ∧ p.position = pos) = some row) :
    insert_player db fn ln tm pos = (db, row.player_id) := by
  unfold insert_player; rw [h]

theorem insert_pick_post (db : DB) (dId tId pId : Nat) (rn pir ov : Int)
    (st : Option PyStr) :
    (insert_pick db dId tId pId rn pir ov st).draft_picks.any
      (fun pk => pk.draft_id = dId ∧ pk.overall_pick = ov) = true := by
  unfold insert_pick
  split
  case isTrue h => exact h
  case isFalse h => simp

theorem insert_pick_found {db : DB} {dId tId pId : Nat} {rn pir ov : Int}
    {st : Option PyStr}
    (h : db.draft_picks.any (fun pk => pk.draft_id = dId ∧ pk.overall_pick = ov)
      = true) :
    insert_pick db dId tId pId rn pir ov st = db := by
  unfold insert_pick; rw [if_pos h]

/-- Re-running the insert chain against any extension of its own result is
a no-op: every natural key is already present, the lookups return the same
ids, and the pick insert is ignored. -/
theorem insertAll_idem (db : DB) (year : Int) (team : PyStr) (info : PlayerInfo)
    (rp : Int × Int) (overall : Int) :
    ∀ U : DB, dbExt (insertAll db year team info rp overall) U →
      insertAll U year team info rp overall = U := by
  intro U hExt
  obtain ⟨⟨te, hte⟩, ⟨pe, hpe⟩, ⟨de, hde⟩, ⟨ke, hke⟩⟩ := hExt
  -- the drafts table of the final state is the one right after the draft upsert
  have hdrafts : (insertAll db year team info rp overall).drafts =
      (insert_draft db year defaultLeague).1.drafts := by
    unfold insertAll
    rw [insert_pick_drafts, insert_player_drafts, insert_team_drafts]
  have hteams : (insertAll db year team info rp overall).teams =
      (insert_team (insert_draft db year defaultLeague).1 team).1.teams := by
    unfold insertAll
    rw [insert_pick_teams, insert_player_teams]
  have hplayers : (insertAll db year team info rp overall).players =
      (insert_player (insert_team (insert_draft db year defaultLeague).1 team).1
        info.first_name info.last_name info.nfl_team info.position).1.players := by
    unfold insertAll
    rw [insert_pick_players]
  -- the draft key is findable in U with the id computed in the first run
  have hdU : U.drafts.find? (fun d => d.year = year ∧ d.league_name = defaultLeague)
      = some ⟨(insert_draft db year defaultLeague).2, year, defaultLeague⟩ := by
    rw [hde, hdrafts]
    exact find?_append_some (insert_draft_post db year defaultLeague) de
  have h1 : insert_draft U year defaultLeague =
      (U, (insert_draft db year defaultLeague).2) := insert_draft_found hdU
  -- the team key is findable in U with the id computed in the first run
  obtain ⟨trow, htf, htid⟩ := insert_team_post (insert_draft db year defaultLeague).1 team
  have htU : U.teams.find? (fun t => t.team_name = team) = some trow := by
    rw [hte, hteams]
    exact find?_append_some htf te
  have h2 : insert_team U team =
      (U, (insert_team (insert_draft db year defaultLeague).1 team).2) := by
    rw [insert_team_found htU, htid]
  -- the player key is findable in U with the id computed in the first run
  obtain ⟨prow, hpf, hpid⟩ := insert_player_post
    (insert_team (insert_draft db year defaultLeague).1 team).1
    info.first_name info.last_name info.nfl_team info.position
  have hpU : U.players.find? (fun p => p.first_name = info.first_name
      ∧ p.last_name = info.last_name ∧ p.nfl_team = info.nfl_team
      ∧ p.position = info.position) = some prow := by
    rw [hpe, hplayers]
    exact find?_append_some hpf pe
  have h3 : insert_player U info.first_name info.last_name info.nfl_team
      info.position = (U, (insert_player
        (insert_team (insert_draft db year defaultLeague).1 team).1
        info.first_name info.last_name info.nfl_team info.position).2) := by
    rw [insert_player_found hpU, hpid]
  -- the (draft, overall pick) key is present in U
  have hpkU : U.draft_picks.any (fun pk =>
      pk.draft_id = (insert_draft db year defaultLeague).2
      ∧ pk.overall_pick = overall) = true := by
    rw [hke]
    rw [List.any_append]
    have := insert_pick_post
      (insert_player (insert_team (insert_draft db year defaultLeague).1 team).1
        info.first_name info.last_name info.nfl_team info.position).1
      (insert_draft db year defaultLeague).2
      (insert_team (insert_draft db year defaultLeague).1 team).2
      (insert_player (insert_team (insert_draft db year defaultLeague).1 team).1
        info.first_name info.last_name info.nfl_team info.position).2
      rp.1 rp.2 overall info.status
    rw [show (insertAll db year team info rp overall).draft_picks =
      (insert_pick
        (insert_player (insert_team (insert_draft db year defaultLeague).1 team).1
          info.first_name info.last_name info.nfl_team info.position).1
        (insert_draft db year defaultLeague).2
        (insert_team (insert_draft db year defaultLeague).1 team).2
        (insert_player (insert_team (insert_draft db year defaultLeague).1 team).1
          info.first_name info.last_name info.nfl_team info.position).2
        rp.1 rp.2 overall info.status).draft_picks from rfl]
    rw [this]
    simp
  unfold insertAll
  simp only [h1, h2, h3]
  exact insert_pick_found hpkU

/-- The per-row step either leaves the database untouched (conversion
error, sentinel skip, parse failure, zero round) or runs the insert chain,
and which of the two happens depends only on the row. -/
theorem processRow_char (r : CSVRow) :
    ((∀ db2 : DB, ∀ c2 : ImportCounters, (processRow (db2, c2) r).1 = db2))
    ∨ (∃ year overall info rp,
        pyInt r.year_s = some year ∧ pyInt r.overall_s = some overall ∧
        parse_player_string r.player_s = some info ∧
        parse_pick_number r.pick_s = some rp ∧
        ∀ db2 : DB, ∀ c2 : ImportCounters, processRow (db2, c2) r =
          (insertAll db2 year r.team_s info rp overall,
           { c2 with imported := c2.imported + 1 })) := by
  cases hy : pyInt r.year_s with
  | none => exact Or.inl (fun db2 c2 => by simp [processRow, hy])
  | some year =>
  cases ho : pyInt r.overall_s with
  | none => exact Or.inl (fun db2 c2 => by simp [processRow, hy, ho])
  | some overall =>
  by_cases hsent : pyLower (pyStrip r.player_s) ∈ sentinels
  · exact Or.inl (fun db2 c2 => by simp [processRow, hy, ho, hsent])
  cases hp : parse_player_string r.player_s with
  | none => exact Or.inl (fun db2 c2 => by simp [processRow, hy, ho, hsent, hp])
  | some info =>
  cases hk : parse_pick_number r.pick_s with
  | none => exact Or.inl (fun db2 c2 => by simp [processRow, hy, ho, hsent, hp, hk])
  | some rp =>
  by_cases hr0 : rp.1 = 0
  · exact Or.inl (fun db2 c2 => by simp [processRow, hy, ho, hsent, hp, hk, hr0])
  · exact Or.inr ⟨year, overall, info, rp, rfl, rfl, rfl, rfl,
      fun db2 c2 => by simp [processRow, hy, ho, hsent, hp, hk, hr0]⟩

/-- Each per-row step only appends to the tables. -/
theorem processRow_ext (st : DB × ImportCounters) (r : CSVRow) :
    dbExt st.1 (processRow st r).1 := by
  rcases processRow_char r with h | ⟨year, overall, info, rp, _, _, _, _, h⟩
  · rw [show st = (st.1, st.2) from rfl, h st.1 st.2]
    exact dbExt_refl _
  · rw [show st = (st.1, st.2) from rfl, h st.1 st.2]
    exact insertAll_ext ..

/-- The whole import only appends to the tables. -/
theorem foldl_processRow_ext (rows : List CSVRow) :
    ∀ st : DB × ImportCounters, dbExt st.1 ((rows.foldl processRow st).1) := by
  induction rows with
  | nil => intro st; exact dbExt_refl _
  | cons x xs ih =>
    intro st
    rw [List.foldl_cons]
    exact dbExt_trans (processRow_ext st x) (ih (processRow st x))

/-- Re-processing a row against any extension of this row's own result is
a no-op on the tables. -/
theorem processRow_idem (r : CSVRow) (st : DB × ImportCounters) :
    ∀ U c2, dbExt (processRow st r).1 U → (processRow (U, c2) r).1 = U := by
  intro U c2 hExt
  rcases processRow_char r with h | ⟨year, overall, info, rp, _, _, _, _, h⟩
  · exact h U c2
  · rw [h U c2]
    rw [show st = (st.1, st.2) from rfl, h st.1 st.2] at hExt
    exact insertAll_idem st.1 year r.team_s info rp overall U hExt

/-- After the import has run once, re-processing any of its rows against
any extension of the final state is a no-op on the tables. -/
theorem run1_settles (rows : List CSVRow) :
    ∀ st : DB × ImportCounters, ∀ r ∈ rows, ∀ U c2,
      dbExt ((rows.foldl processRow st).1) U → (processRow (U, c2) r).1 = U := by
  induction rows with
  | nil => intro st r hr; exact absurd hr (List.not_mem_nil r)
  | cons x xs ih =>
    intro st r hr U c2 hExt
    rw [List.foldl_cons] at hExt
    rcases List.mem_cons.mp hr with h | h
    · subst h
      exact processRow_idem r st U c2
        (dbExt_trans (foldl_processRow_ext xs (processRow st r)) hExt)
    · exact ih (processRow st x) r h U c2 hExt

/-- Folding the row step over rows that are all no-ops on a database
leaves that database unchanged. -/
theorem foldl_processRow_noop :
    ∀ (rows : List CSVRow) (db : DB) (c0 : ImportCounters),
      (∀ r ∈ rows, ∀ c2, (processRow (db, c2) r).1 = db) →
      (rows.foldl processRow (db, c0)).1 = db := by
  intro rows
  induction rows with
  | nil => intro db c0 h; rfl
  | cons x xs ih =>
    intro db c0 h
    rw [List.foldl_cons]
    have hx := h x (List.mem_cons_self x xs) c0
    have hpair : processRow (db, c0) x = (db, (processRow (db, c0) x).2) := by
      conv_lhs => rw [← Prod.mk.eta (p := processRow (db, c0) x)]
      rw [hx]
    rw [hpair]
    exact ih db ((processRow (db, c0) x).2)
      (fun r hr c2 => h r (List.mem_cons_of_mem x hr) c2)

/-- C1: running `import_csv_data` a second time on the same rows against
the database produced by the first run leaves the database — the contents
of all four tables `teams`, `players`, `drafts`, `draft_picks`, and hence
their row counts — exactly as it was after the first run: every
`INSERT OR IGNORE` keyed on the natural keys is a no-op on the repeat
run. -/
theorem import_csv_data_idempotent (db : DB) (rows : List CSVRow) :
    (import_csv_data (import_csv_data db rows).1 rows).1 =
      (import_csv_data db rows).1 := by
  unfold import_csv_data
  apply foldl_processRow_noop
  intro r hr c2
  exact run1_settles rows (db, ⟨0, 0, 0⟩) r hr _ c2 (dbExt_refl _)

/-! ### Claim C5: sentinel rows are skipped, not errors

The sentinel check sits after the `int()` conversions of the year and
overall-pick cells inside the same `try` block, so a sentinel row with an
unconvertible numeric cell is counted as an error, not skipped.  The claim
holds once those conversions succeed. -/

/-- Counterexample to C5 as stated: a row whose pick-text is the sentinel
`"No Pick Made"` but whose year cell is `"abc"` hits the `int()`
conversion first, so the error counter (not the skipped counter) is
incremented. -/
theorem sentinel_skip_cex :
    (processRow (emptyDB, ⟨0, 0, 0⟩)
      ⟨"abc".toList, "1.01".toList, "1".toList,
       "Team A".toList, "No Pick Made".toList⟩).2.skipped = 0
    ∧ (processRow (emptyDB, ⟨0, 0, 0⟩)
      ⟨"abc".toList, "1.01".toList, "1".toList,
       "Team A".toList, "No Pick Made".toList⟩).2.error = 1 := by
  constructor <;> decide

/-- C5 (amended): provided the row's year and overall-pick cells convert
to integers, a row whose pick-text, after trimming, case-insensitively
equals one of the sentinel phrases is skipped: the database is unchanged
(no row inserted in any table), the skipped counter is incremented, and
the error counter is not. -/
theorem sentinel_skip (r : CSVRow) (db : DB) (c : ImportCounters)
    (hy : (pyInt r.year_s).isSome) (ho : (pyInt r.overall_s).isSome)
    (hs : pyLower (pyStrip r.player_s) ∈ sentinels) :
    processRow (db, c) r = (db, { c with skipped := c.skipped + 1 }) := by
  cases hy2 : pyInt r.year_s with
  | none => rw [hy2] at hy; exact absurd hy (by simp)
  | some year =>
    cases ho2 : pyInt r.overall_s with
    | none => rw [ho2] at ho; exact absurd ho (by simp)
    | some overall => simp [processRow, hy2, ho2, hs]

/-- Witness for C5 (amended) on a concrete mixed-case sentinel row. -/
theorem sentinel_skip_witness :
    ((pyInt "2025".toList).isSome
      ∧ (pyInt "7".toList).isSome
      ∧ pyLower (pyStrip "No PICK Made".toList) ∈ sentinels)
    ∧ processRow (emptyDB, ⟨0, 0, 0⟩)
        ⟨"2025".toList, "1.01".toList, "7".toList,
         "Team A".toList, "No PICK Made".toList⟩ =
      (emptyDB, ⟨0, 0, 1⟩) := by
  refine ⟨⟨by decide, by decide, by decide⟩, ?_⟩
  have h := sentinel_skip
    ⟨"2025".toList, "1.01".toList, "7".toList,
     "Team A".toList, "No PICK Made".toList⟩
    emptyDB ⟨0, 0, 0⟩ (by decide) (by decide) (by decide)
  exact h

/-! ### Claim C7: behaviour of `main` when the input CSV is missing

`main` (database_setup.py lines 260-293) connects, creates the tables, and
only then checks whether the CSV file exists; with the file missing the
importing is skipped but `CREATE TABLE IF NOT EXISTS` has already run.
The database file state is modelled as `Option DB`: `none` is a fresh
database without tables, `some db` a database whose tables exist with
contents `db`. -/

/-- Models `create_tables` (lines 27-82): `CREATE TABLE IF NOT EXISTS` for
the four tables — creates them empty when absent, otherwise no-op. -/
def create_tables : Option DB → Option DB
  | none => some emptyDB
  | some db => some db

/-- Models `main` (lines 260-293): connect, create tables, then import
only when the input CSV exists (the subsequent summary queries are
read-only).  `fileExists` models `os.path.exists(csv_file)` and `rows` the
parsed CSV contents. -/
def mainRun (fileExists : Bool) (rows : List CSVRow) (f : Option DB) : Option DB :=
  let f1 := create_tables f
  if fileExists then f1.map (fun db => (import_csv_data db rows).1) else f1

/-- Counterexample to C7 as stated: on a fresh database with the input CSV
missing, `main` still creates the four (empty) tables — the database is
changed before the missing file is detected. -/
theorem mainRun_missing_file_cex :
    mainRun false [] none = some emptyDB
    ∧ mainRun false [] none ≠ none := by
  constructor <;> decide

/-- C7 (amended): when the input CSV file is missing, the run reports it
and performs no row inserts — the contents of an existing database are
unchanged — but it does not abort before all writes: `create_tables` has
already run, so on a fresh database the four tables are created (empty). -/
theorem mainRun_missing_file (rows : List CSVRow) :
    (∀ f, mainRun false rows f = create_tables f)
    ∧ (∀ db, mainRun false rows (some db) = some db)
    ∧ mainRun false rows none = some emptyDB :=
  ⟨fun _ => rfl, fun _ => rfl, rfl⟩

/-! ### The CSV cell sanitizer (cleanup_csv.py) -/

/-- The non-breaking space `\xa0` (code point 160). -/
def nbsp : Char := Char.ofNat 160

/-- The `unicode_whitespace` list of `clean_csv_file` (lines 56-67), in
source order: thin space, en space, em space, three-per-em, four-per-em,
six-per-em, figure space, punctuation space, hair space, zero width
space. -/
def unicode_whitespace : List Char :=
  [Char.ofNat 8201, Char.ofNat 8194, Char.ofNat 8195, Char.ofNat 8196,
   Char.ofNat 8197, Char.ofNat 8198, Char.ofNat 8199, Char.ofNat 8200,
   Char.ofNat 8202, Char.ofNat 8203]

/-- The full set of characters tracked by `verify_cleaning` (lines
111-113): the non-breaking space plus `unicode_whitespace`. -/
def trackedChars : List Char := nbsp :: unicode_whitespace

/-- Models `s.replace(a, b)` for a single-character needle. -/
def pyReplaceChar (a b : Char) (l : PyStr) : PyStr :=
  l.map (fun c => if c = a then b else c)

/-- Lines 51-72 of `clean_csv_file`: replace the non-breaking space, then
each `unicode_whitespace` character, by a regular space.  (The source
guards each replacement with a containment check used only for change
counting; replacing an absent character is the identity, so the guard is
dropped here.) -/
def replaceTracked (l : PyStr) : PyStr :=
  unicode_whitespace.foldl (fun acc ch => pyReplaceChar ch ' ' acc)
    (pyReplaceChar nbsp ' ' l)

/-- Models `re.sub(r' +', ' ', s)` (line 75): collapse each run of
consecutive regular spaces to a single space. -/
def collapseSpaces : PyStr → PyStr
  | [] => []
  | [c] => [c]
  | a :: b :: rest =>
    if a = ' ' ∧ b = ' ' then collapseSpaces (b :: rest)
    else a :: collapseSpaces (b :: rest)

/-- The per-cell cleaning pipeline of `clean_csv_file` (lines 47-78):
replacements, space collapsing, then `strip()`. -/
def clean_cell (cell : PyStr) : PyStr :=
  pyStrip (collapseSpaces (replaceTracked cell))

/-- The per-string count of `verify_cleaning` (lines 107-114): sum of the
occurrence counts of the eleven tracked characters. -/
def countTracked (l : PyStr) : Nat :=
  (trackedChars.map (fun ch => l.count ch)).sum

/-- Characters surviving the replacement fold are either spaces or
original characters distinct from every replaced character. -/
theorem mem_foldl_replace :
    ∀ (chs : List Char) (acc : PyStr) (c : Char),
      c ∈ chs.foldl (fun a ch => pyReplaceChar ch ' ' a) acc →
      c = ' ' ∨ (c ∈ acc ∧ c ∉ chs) := by
  intro chs
  induction chs with
  | nil => intro acc c h; exact Or.inr ⟨h, List.not_mem_nil c⟩
  | cons ch rest ih =>
    intro acc c h
    rw [List.foldl_cons] at h
    rcases ih (pyReplaceChar ch ' ' acc) c h with h2 | ⟨h2, h3⟩
    · exact Or.inl h2
    · obtain ⟨d, hd, hdc⟩ := List.mem_map.mp h2
      by_cases hdch : d = ch
      · rw [if_pos hdch] at hdc
        exact Or.inl hdc.symm
      · rw [if_neg hdch] at hdc
        subst hdc
        exact Or.inr ⟨hd, by simp [hdch, h3]⟩

/-- After the replacements no tracked character is left. -/
theorem mem_replaceTracked {l : PyStr} {c : Char} (h : c ∈ replaceTracked l) :
    c ∉ trackedChars := by
  rcases mem_foldl_replace unicode_whitespace (pyReplaceChar nbsp ' ' l) c h
    with h2 | ⟨h2, h3⟩
  · subst h2; decide
  · obtain ⟨d, hd, hdc⟩ := List.mem_map.mp h2
    by_cases hdn : d = nbsp
    · rw [if_pos hdn] at hdc; subst hdc; decide
    · rw [if_neg hdn] at hdc
      subst hdc
      simp [trackedChars, hdn, h3]

/-- Space collapsing only keeps characters of the input. -/
theorem mem_collapseSpaces : ∀ (l : PyStr) (c : Char),
    c ∈ collapseSpaces l → c ∈ l := by
  intro l
  induction l with
  | nil => intro c h; exact absurd h (by simp [collapseSpaces])
  | cons a rest ih =>
    cases rest with
    | nil => intro c h; simpa [collapseSpaces] using h
    | cons b rest2 =>
      intro c h
      rw [collapseSpaces] at h
      split at h
      · exact List.mem_cons_of_mem a (ih c h)
      · rcases List.mem_cons.mp h with h2 | h2
        · exact h2 ▸ List.mem_cons_self a _
        · exact List.mem_cons_of_mem a (ih c h2)

/-- Stripping only keeps characters of the input. -/
theorem mem_pyStrip {l : PyStr} {c : Char} (h : c ∈ pyStrip l) : c ∈ l := by
  unfold pyStrip at h
  rw [List.mem_reverse] at h
  have h2 := (List.dropWhile_sublist (l := (l.dropWhile isPySpace).reverse)
    (p := isPySpace)).mem h
  rw [List.mem_reverse] at h2
  exact (List.dropWhile_sublist (l := l) (p := isPySpace)).mem h2

/-- No character of a cleaned cell is tracked. -/
theorem mem_clean_cell_not_tracked {cell : PyStr} {c : Char}
    (h : c ∈ clean_cell cell) : c ∉ trackedChars :=
  mem_replaceTracked (mem_collapseSpaces _ _ (mem_pyStrip h))

/-- The head of `collapseSpaces` is the head of its input. -/
theorem collapseSpaces_head? : ∀ (a : Char) (l : PyStr),
    (collapseSpaces (a :: l)).head? = some a := by
  intro a l
  induction l generalizing a with
  | nil => rfl
  | cons b rest2 ih =>
    rw [collapseSpaces]
    split
    case isTrue hab => rw [ih b, hab.1, hab.2]
    case isFalse hab => rfl

/-- `collapseSpaces` leaves no two adjacent regular spaces. -/
theorem collapseSpaces_chain : ∀ l : PyStr,
    List.Chain' (fun x y => ¬(x = ' ' ∧ y = ' ')) (collapseSpaces l) := by
  intro l
  induction l with
  | nil => simp [collapseSpaces]
  | cons a rest ih =>
    cases rest with
    | nil => simp [collapseSpaces]
    | cons b rest2 =>
      rw [collapseSpaces]
      split
      case isTrue hab => exact ih
      case isFalse hab =>
        rw [List.chain'_cons']
        refine ⟨fun y hy => ?_, ih⟩
        rw [collapseSpaces_head? b rest2] at hy
        intro ⟨ha, hy2⟩
        exact hab ⟨ha, by simp_all⟩

/-- `dropWhile` preserves the no-adjacent-pair property. -/
theorem chain'_dropWhile {R : Char → Char → Prop} {p : Char → Bool} :
    ∀ l : PyStr, List.Chain' R l → List.Chain' R (l.dropWhile p) := by
  intro l
  induction l with
  | nil => intro h; simp
  | cons a rest ih =>
    intro h
    rw [List.dropWhile_cons]
    split
    · exact ih h.tail
    · exact h

/-- `reverse` preserves the (symmetric) no-adjacent-spaces property. -/
theorem chain'_reverse_spaces {l : PyStr}
    (h : List.Chain' (fun x y => ¬(x = ' ' ∧ y = ' ')) l) :
    List.Chain' (fun x y => ¬(x = ' ' ∧ y = ' ')) l.reverse := by
  rw [List.chain'_reverse]
  exact h.imp (fun a b hab => fun hba => hab ⟨hba.2, hba.1⟩)

/-- Stripping preserves the no-adjacent-spaces property. -/
theorem chain'_pyStrip {l : PyStr}
    (h : List.Chain' (fun x y => ¬(x = ' ' ∧ y = ' ')) l) :
    List.Chain' (fun x y => ¬(x = ' ' ∧ y = ' ')) (pyStrip l) := by
  unfold pyStrip
  exact chain'_reverse_spaces (chain'_dropWhile _
    (chain'_reverse_spaces (chain'_dropWhile _ h)))

/-- A nonempty strip result starts with a non-whitespace character. -/
theorem pyStrip_head? {l : PyStr} {c : Char}
    (h : (pyStrip l).head? = some c) : isPySpace c = false := by
  unfold pyStrip at h
  cases hA : l.dropWhile isPySpace with
  | nil => rw [hA] at h; exact absurd h (by simp)
  | cons a A2 =>
    have hpa : isPySpace a = false := by
      have hh := List.head?_dropWhile_not isPySpace l
      rw [hA] at hh
      simpa using hh
    rw [hA] at h
    have hrw : (a :: A2).reverse = A2.reverse ++ [a] := by simp
    rw [hrw, List.dropWhile_append] at h
    split at h
    case isTrue h2 =>
      rw [List.dropWhile_cons, hpa] at h
      simp at h
      exact h ▸ hpa
    case isFalse h2 =>
      rw [List.reverse_append] at h
      simp only [List.reverse_cons, List.reverse_nil, List.nil_append,
        List.cons_append, List.head?_cons] at h
      exact (Option.some_inj.mp h) ▸ hpa

/-- A nonempty strip result ends with a non-whitespace character. -/
theorem pyStrip_getLast? {l : PyStr} {c : Char}
    (h : (pyStrip l).getLast? = some c) : isPySpace c = false := by
  unfold pyStrip at h
  rw [List.getLast?_reverse] at h
  have hh := List.head?_dropWhile_not isPySpace (l.dropWhile isPySpace).reverse
  rw [h] at hh
  simpa using hh

/-- C6: cleaning replaces every tracked Unicode space variant, collapses
space runs and strips the ends: `"Team Name"` becomes
`"Team Name"`; a cleaned cell contains zero occurrences of the eleven
tracked characters (so the diagnostic count of `verify_cleaning` on
cleaned cells is 0), has no two adjacent regular spaces, and neither
starts nor ends with whitespace. -/
theorem clean_cell_spec :
    clean_cell "Team Name".toList = "Team Name".toList
    ∧ (∀ cell, countTracked (clean_cell cell) = 0)
    ∧ (∀ cell, List.Chain' (fun x y => ¬(x = ' ' ∧ y = ' ')) (clean_cell cell))
    ∧ (∀ cell c, (clean_cell cell).head? = some c → isPySpace c = false)
    ∧ (∀ cell c, (clean_cell cell).getLast? = some c → isPySpace c = false) := by
  refine ⟨by decide, fun cell => ?_, fun cell => ?_, fun cell c h => ?_,
    fun cell c h => ?_⟩
  · apply List.sum_eq_zero
    intro x hx
    obtain ⟨ch, hch, hxe⟩ := List.mem_map.mp hx
    subst hxe
    exact List.count_eq_zero.mpr (fun hc => mem_clean_cell_not_tracked hc hch)
  · exact chain'_pyStrip (collapseSpaces_chain _)
  · exact pyStrip_head? h
  · exact pyStrip_getLast? h

/-- Witness for C6 at the cell `"Team Name"`. -/
theorem clean_cell_spec_witness :
    ((clean_cell "Team Name".toList).head? = some 'T'
      ∧ isPySpace 'T' = false)
    ∧ ((clean_cell "Team Name".toList).getLast? = some 'e'
      ∧ isPySpace 'e' = false) := by
  have h1 : (clean_cell "Team Name".toList).head? = some 'T' := by decide
  have h2 : (clean_cell "Team Name".toList).getLast? = some 'e' := by decide
  exact ⟨⟨h1, clean_cell_spec.2.2.2.1 _ _ h1⟩,
         ⟨h2, clean_cell_spec.2.2.2.2 _ _ h2⟩⟩

/-! ### The dashboard scarcity breakdowns (streamlit_app.py) -/

/-- A row of the dashboard dataframe as used by the scarcity breakdowns of
`round_analysis_tab` and `pick_analysis_tab` (only the columns those
breakdowns read). -/
structure DashRow where
  position : PyStr
  round_number : Int
  overall_pick : Int
deriving DecidableEq, Repr

/-- `data_through_round['position'].value_counts().get(pos, 0)` with
`data_through_round = df[df['round_number'] <= selected_round]`
(lines 366 and 529, used at 537). -/
def takenByRound (df : List DashRow) (cutoff : Int) (pos : PyStr) : Nat :=
  (df.filter (fun x => x.round_number ≤ cutoff)).countP (fun x => x.position = pos)

/-- `data_remaining['position'].value_counts().get(pos, 0)` with
`data_remaining = df[df['round_number'] > selected_round]`
(lines 369 and 530, used at 538). -/
def remainingByRound (df : List DashRow) (cutoff : Int) (pos : PyStr) : Nat :=
  (df.filter (fun x => cutoff < x.round_number)).countP (fun x => x.position = pos)

/-- The round-analysis counts with `overall_pick` in place of
`round_number` (lines 663, 666, 836, 837). -/
def takenByPick (df : List DashRow) (cutoff : Int) (pos : PyStr) : Nat :=
  (df.filter (fun x => x.overall_pick ≤ cutoff)).countP (fun x => x.position = pos)

def remainingByPick (df : List DashRow) (cutoff : Int) (pos : PyStr) : Nat :=
  (df.filter (fun x => cutoff < x.overall_pick)).countP (fun x => x.position = pos)

/-- The number of picks of one position in the filtered data. -/
def totalPos (df : List DashRow) (pos : PyStr) : Nat :=
  df.countP (fun x => x.position = pos)

/-- `df['position'].unique()` (line 533): the distinct positions. -/
def positionsOf (df : List DashRow) : List PyStr :=
  (df.map (fun x => x.position)).dedup

/-- A count over a filter splits along a decidable threshold. -/
theorem countP_filter_split (df : List DashRow) (q : DashRow → Bool)
    (f : DashRow → Int) (cutoff : Int) :
    (df.filter (fun x => f x ≤ cutoff)).countP q
      + (df.filter (fun x => cutoff < f x)).countP q = df.countP q := by
  induction df with
  | nil => rfl
  | cons x rest ih =>
    by_cases hx : f x ≤ cutoff
    · have hx2 : ¬ cutoff < f x := not_lt.mpr hx
      cases hq : q x <;>
        simp [List.filter_cons, hx, hx2, List.countP_cons, hq] <;> omega
    · have hx2 : cutoff < f x := not_le.mp hx
      cases hq : q x <;>
        simp [List.filter_cons, hx, hx2, List.countP_cons, hq] <;> omega

/-- The `count` induced by decidable equality agrees with `countP` of the
equality test. -/
theorem count_decEq_eq_countP (v : PyStr) (l : List PyStr) :
    @List.count PyStr instBEqOfDecidableEq v l = l.countP (fun x => x = v) := by
  induction l with
  | nil => rfl
  | cons x rest ih =>
    rw [@List.count_cons PyStr instBEqOfDecidableEq, List.countP_cons, ih]
    by_cases h : x = v
    · simp [h]
    · simp [h]

/-- Each per-position total is the occurrence count of the position in the
projected position column. -/
theorem totalPos_eq_count (df : List DashRow) (pos : PyStr) :
    totalPos df pos =
      @List.count PyStr instBEqOfDecidableEq pos (df.map (fun x => x.position)) := by
  rw [count_decEq_eq_countP, List.countP_map]
  rfl

/-- C8: in both scarcity breakdowns, for every position and every cutoff
the Taken count plus the Remaining count equals the total number of picks
of that position in the filtered data, and the per-position totals summed
over all distinct positions equal the total number of picks N. -/
theorem scarcity_partition :
    (∀ (df : List DashRow) (cutoff : Int) (pos : PyStr),
      takenByRound df cutoff pos + remainingByRound df cutoff pos = totalPos df pos)
    ∧ (∀ (df : List DashRow) (cutoff : Int) (pos : PyStr),
      takenByPick df cutoff pos + remainingByPick df cutoff pos = totalPos df pos)
    ∧ (∀ df : List DashRow,
      ((positionsOf df).map (fun pos => totalPos df pos)).sum = df.length) := by
  refine ⟨fun df cutoff pos => ?_, fun df cutoff pos => ?_, fun df => ?_⟩
  · exact countP_filter_split df _ (fun x => x.round_number) cutoff
  · exact countP_filter_split df _ (fun x => x.overall_pick) cutoff
  · calc ((positionsOf df).map (fun pos => totalPos df pos)).sum
        = ((df.map (fun x => x.position)).dedup.map
            (fun v => @List.count PyStr instBEqOfDecidableEq v
              (df.map (fun x => x.position)))).sum := by
          unfold positionsOf
          congr 1
          exact List.map_congr_left (fun v _ => totalPos_eq_count df v)
      _ = (df.map (fun x => x.position)).length :=
          List.sum_map_count_dedup_eq_length _
      _ = df.length := by simp

end FFL
